import Mathlib

/-!
Verification development for the openvino_xai repository.

Shallow embedding of the saliency post-processing pipeline
(`openvino_xai/common/utils.py`, `openvino_xai/explainer/utils.py`,
`openvino_xai/explainer/visualizer.py`), of the IR-graph target-node
resolution (`openvino_xai/insertion/parse_model.py`) and of the RISE
black-box method (`openvino_xai/methods/black_box/rise.py`).

Numeric arrays are modelled with exact rational arithmetic (`ℚ`) in place
of IEEE float32; machine-integer casts are explicit.  Python exceptions are
modelled with `Except`.
-/

set_option maxRecDepth 4096

deriving instance DecidableEq for Except

namespace OpenvinoXai

/-- Python exceptions raised by the embedded code.  `resolutionError` does not
correspond to any class in the source: it is the error named by the
specification's error taxonomy ("ResolutionError"), included only so that the
specification's wording can be stated and compared against the exceptions the
code actually raises (`ValueError`, `RuntimeError`). -/
inductive PyErr where
  | valueError (msg : String)
  | runtimeError (msg : String)
  | indexError (msg : String)
  | resolutionError (msg : String)
deriving DecidableEq, Repr

/-! ## Explainer target utilities (`openvino_xai/explainer/utils.py`) -/

/-- One element of a `targets` list: an integer class index or a string label
name (the `int | str` elements accepted by `get_target_indices`). -/
inductive TV where
  | int (z : ℤ)
  | str (s : String)
deriving DecidableEq, Repr

/-- Whether a target element is a string. -/
def TV.isStr : TV → Bool
  | .int _ => false
  | .str _ => true

/-- `np.asarray` on a mixed `int | str` list promotes every element to a
string dtype; a pure-int list stays integral.  This mirrors the
`convert_targets_to_numpy` coercion performed on entry to
`get_target_indices`. -/
def coerceTargets (ts : List TV) : List TV :=
  if ts.any TV.isStr then
    ts.map (fun t => match t with
      | .int z => .str (toString z)
      | .str s => .str s)
  else ts

/-- The integer payload of a target element (only ever used on lists in which
every element is an integer; the string case is unreachable there). -/
def TV.toInt : TV → ℤ
  | .int z => z
  | .str _ => 0

/-- Enumeration loop of `get_target_indices` (source lines 45-48):
`for label_index, label in enumerate(label_names): if label in targets:
target_indices.append(label_index)`.  `i` is the running enumeration
index. -/
def targetIndicesAux (i : ℤ) (labels : List String) (targets : List TV) : List ℤ :=
  match labels with
  | [] => []
  | l :: ls =>
      if TV.str l ∈ targets then i :: targetIndicesAux (i + 1) ls targets
      else targetIndicesAux (i + 1) ls targets

/-- `get_target_indices(targets, label_names)` from
`openvino_xai/explainer/utils.py`, lines 20-53.
* `targets[0]` integral: the (coerced) targets array is returned as is.
* `targets[0]` a string: requires a non-empty `label_names`
  (`if not label_names` treats `None` and `[]` alike), collects the indices of
  the labels contained in `targets` in enumeration order, and raises
  `ValueError` when the collected count differs from `len(targets)`.
* empty `targets`: `targets[0]` raises `IndexError`. -/
def getTargetIndices (targets : List TV) (label_names : Option (List String)) :
    Except PyErr (List ℤ) :=
  let ts := coerceTargets targets
  match ts.head? with
  | none => .error (.indexError "index 0 is out of bounds for axis 0 with size 0")
  | some (.int _) => .ok (ts.map TV.toInt)
  | some (.str _) =>
      match label_names with
      | none => .error (.valueError "Label names should be provided when targets contain string names.")
      | some labels =>
          if labels = [] then
            .error (.valueError "Label names should be provided when targets contain string names.")
          else
            let target_indices := targetIndicesAux 0 labels ts
            if ts.length = target_indices.length then .ok target_indices
            else .error (.valueError "No all label names found in label_names. Check spelling.")

/-- The full `targets` argument of `explains_all`: a plain integer, a plain
string, or a sequence (list / 1-d array) of target elements. -/
inductive Targets where
  | int (z : ℤ)
  | str (s : String)
  | seq (ts : List TV)
deriving DecidableEq, Repr

/-- Python `element == -1` for a sequence element: an integer compares by
value, a string never equals the integer `-1`. -/
def TV.eqNegOne : TV → Bool
  | .int z => z == -1
  | .str _ => false

/-- `explains_all(targets)` from `openvino_xai/explainer/utils.py`,
lines 56-67: `True` for the integer `-1`, for a length-1 sequence whose only
element equals `-1`, and for the string `"-1"`; `False` otherwise. -/
def explainsAll : Targets → Bool
  | .int z => z == -1
  | .seq ts => ts.length == 1 && (ts.headD (.int 0)).eqNegOne
  | .str s => s == "-1"

/-- The VOC label table used by the repository's unit tests
(`tests/unit/explanation/test_explanation_utils.py`). -/
def vocNames : List String :=
  ["aeroplane", "bicycle", "bird", "boat", "bottle", "bus", "car", "cat",
   "chair", "cow", "diningtable", "dog", "horse", "motorbike", "person",
   "pottedplant", "sheep", "sofa", "train", "tvmonitor"]

lemma str_mem_map_str {s : String} {ts : List String} :
    TV.str s ∈ ts.map TV.str ↔ s ∈ ts := by simp

lemma coerceTargets_map_str (T : List String) :
    coerceTargets (T.map TV.str) = T.map TV.str := by
  cases T with
  | nil => rfl
  | cons t ts => simp [coerceTargets, TV.isStr, List.map_map]

lemma coerceTargets_map_int (zs : List ℤ) :
    coerceTargets (zs.map TV.int) = zs.map TV.int := by
  simp [coerceTargets, List.any_map, TV.isStr, Function.comp]

lemma targetIndicesAux_length (labels : List String) (ts : List TV) :
    ∀ i, (targetIndicesAux i labels ts).length
      = labels.countP (fun l => decide (TV.str l ∈ ts)) := by
  induction labels with
  | nil => intro i; simp [targetIndicesAux]
  | cons l ls ih =>
      intro i
      by_cases h : TV.str l ∈ ts <;>
        simp [targetIndicesAux, h, ih, List.countP_cons]

lemma targetIndicesAux_congr (labels : List String) {ts ts' : List TV}
    (h : ∀ s : String, TV.str s ∈ ts ↔ TV.str s ∈ ts') :
    ∀ i, targetIndicesAux i labels ts = targetIndicesAux i labels ts' := by
  induction labels with
  | nil => intro i; rfl
  | cons l ls ih =>
      intro i
      by_cases hmem : TV.str l ∈ ts
      · rw [targetIndicesAux, targetIndicesAux, if_pos hmem, if_pos ((h l).mp hmem), ih]
      · rw [targetIndicesAux, targetIndicesAux, if_neg hmem,
          if_neg (fun hc => hmem ((h l).mpr hc)), ih]

lemma targetIndicesAux_lb (labels : List String) (ts : List TV) :
    ∀ i, ∀ z ∈ targetIndicesAux i labels ts, i ≤ z := by
  induction labels with
  | nil => intro i z hz; simp [targetIndicesAux] at hz
  | cons l ls ih =>
      intro i z hz
      by_cases h : TV.str l ∈ ts
      · rw [targetIndicesAux, if_pos h] at hz
        rcases List.mem_cons.mp hz with rfl | hz
        · exact le_refl z
        · exact le_trans (by linarith) (ih (i + 1) z hz)
      · rw [targetIndicesAux, if_neg h] at hz
        exact le_trans (by linarith) (ih (i + 1) z hz)

lemma targetIndicesAux_sorted (labels : List String) (ts : List TV) :
    ∀ i, (targetIndicesAux i labels ts).Sorted (· < ·) := by
  induction labels with
  | nil => intro i; simp [targetIndicesAux]
  | cons l ls ih =>
      intro i
      by_cases h : TV.str l ∈ ts
      · rw [targetIndicesAux, if_pos h]
        exact List.sorted_cons.mpr
          ⟨fun z hz => lt_of_lt_of_le (by linarith) (targetIndicesAux_lb ls ts (i + 1) z hz),
           ih (i + 1)⟩
      · rw [targetIndicesAux, if_neg h]
        exact ih (i + 1)

/-- With a duplicate-free label table, the enumeration loop finds exactly one
index per distinct present target name. -/
lemma targetIndicesAux_length_of_nodup {L T : List String} (hL : L.Nodup)
    (hT : T.Nodup) (hsub : ∀ t ∈ T, t ∈ L) :
    (targetIndicesAux 0 L (T.map TV.str)).length = T.length := by
  rw [targetIndicesAux_length]
  have hpred : (fun l => decide (TV.str l ∈ T.map TV.str)) = (fun l => decide (l ∈ T)) := by
    funext l; exact decide_eq_decide.mpr str_mem_map_str
  rw [hpred, List.countP_eq_length_filter]
  have hnd : (L.filter (fun l => decide (l ∈ T))).Nodup := hL.filter _
  have hperm : (L.filter (fun l => decide (l ∈ T))).Perm T := by
    apply List.perm_of_nodup_nodup_toFinset_eq hnd hT
    ext x
    simp only [List.mem_toFinset, List.mem_filter, decide_eq_true_eq]
    exact ⟨fun h => h.2, fun h => ⟨hsub x h, h⟩⟩
  exact hperm.length_eq

/-- Success case of the string branch of `get_target_indices`. -/
lemma getTargetIndices_str_ok {L T : List String} (hL : L.Nodup) (hT : T.Nodup)
    (hne : T ≠ []) (hsub : ∀ t ∈ T, t ∈ L) :
    getTargetIndices (T.map TV.str) (some L) = .ok (targetIndicesAux 0 L (T.map TV.str)) := by
  obtain ⟨t, ts, rfl⟩ := List.exists_cons_of_ne_nil hne
  have hLne : ¬(L = []) := fun h => by
    have := hsub t (by simp)
    simp [h] at this
  have hlen := targetIndicesAux_length_of_nodup hL hT hsub
  simp only [getTargetIndices]
  rw [coerceTargets_map_str]
  simp only [List.map_cons, List.head?_cons]
  rw [if_neg hLne, if_pos (by simp only [List.map_cons] at hlen; simp [hlen])]

/-- A nodup list is no longer than any list containing it. -/
lemma nodup_length_le_of_subset {l₁ l₂ : List String} (h₁ : l₁.Nodup) (h₂ : l₁ ⊆ l₂) :
    l₁.length ≤ l₂.length := by
  calc l₁.length = l₁.toFinset.card := (List.toFinset_card_of_nodup h₁).symm
    _ ≤ l₂.toFinset.card := Finset.card_le_card (fun x hx =>
        List.mem_toFinset.mpr (h₂ (List.mem_toFinset.mp hx)))
    _ ≤ l₂.length := l₂.toFinset_card_le

/-- With a duplicate-free table, an unmatched target name makes the collected
index count fall short of `len(targets)`. -/
lemma targetIndicesAux_length_lt {L T : List String} (hL : L.Nodup)
    {t₀ : String} (ht₀T : t₀ ∈ T) (ht₀L : t₀ ∉ L) :
    (targetIndicesAux 0 L (T.map TV.str)).length < T.length := by
  rw [targetIndicesAux_length]
  have hpred : (fun l => decide (TV.str l ∈ T.map TV.str)) = (fun l => decide (l ∈ T)) := by
    funext l; simp [str_mem_map_str]
  rw [hpred, List.countP_eq_length_filter]
  have hnd : (L.filter (fun l => decide (l ∈ T))).Nodup := hL.filter _
  have hsubF : (L.filter (fun l => decide (l ∈ T))).toFinset ⊆ T.toFinset.erase t₀ := by
    intro x hx
    have hx' := List.mem_filter.mp (List.mem_toFinset.mp hx)
    exact Finset.mem_erase.mpr
      ⟨fun he => ht₀L (he ▸ hx'.1), List.mem_toFinset.mpr (by simpa using hx'.2)⟩
  calc (L.filter (fun l => decide (l ∈ T))).length
      = (L.filter (fun l => decide (l ∈ T))).toFinset.card :=
        (List.toFinset_card_of_nodup hnd).symm
    _ ≤ (T.toFinset.erase t₀).card := Finset.card_le_card hsubF
    _ = T.toFinset.card - 1 := Finset.card_erase_of_mem (List.mem_toFinset.mpr ht₀T)
    _ < T.toFinset.card := Nat.sub_lt (Finset.card_pos.mpr ⟨t₀, List.mem_toFinset.mpr ht₀T⟩)
        one_pos
    _ ≤ T.length := T.toFinset_card_le

/-- Failure case of the string branch of `get_target_indices` (duplicate-free
table, some name unmatched). -/
lemma getTargetIndices_str_err {L T : List String} (hL : L.Nodup) (hne : T ≠ [])
    {t₀ : String} (ht₀T : t₀ ∈ T) (ht₀L : t₀ ∉ L) :
    ∃ msg, getTargetIndices (T.map TV.str) (some L) = .error (.valueError msg) := by
  obtain ⟨t, ts, rfl⟩ := List.exists_cons_of_ne_nil hne
  simp only [getTargetIndices]
  rw [coerceTargets_map_str]
  simp only [List.map_cons, List.head?_cons]
  by_cases hLnil : L = []
  · exact ⟨"Label names should be provided when targets contain string names.",
      by rw [if_pos hLnil]⟩
  · refine ⟨"No all label names found in label_names. Check spelling.", ?_⟩
    rw [if_neg hLnil, if_neg ?_]
    have hlt := targetIndicesAux_length_lt (T := t :: ts) hL ht₀T ht₀L
    simp only [List.map_cons] at hlt
    intro hEq
    simp only [List.length_cons, List.length_map] at hEq hlt
    omega

/-- Integer branch of `get_target_indices`: an all-integer targets list is
returned unchanged. -/
lemma getTargetIndices_int_ok (zs : List ℤ) (hne : zs ≠ [])
    (ln : Option (List String)) :
    getTargetIndices (zs.map TV.int) ln = .ok zs := by
  obtain ⟨z, zs', rfl⟩ := List.exists_cons_of_ne_nil hne
  simp only [getTargetIndices]
  rw [coerceTargets_map_int]
  simp only [List.map_cons, List.head?_cons]
  simp only [List.map_cons, List.map_map, TV.toInt,
    show TV.toInt ∘ TV.int = id from rfl, List.map_id]

/-- C6 counterexample: for name tables in which the targets are spelled in an
order different from the table's enumeration order, resolving the names gives
the matched indices in table order, while resolving the positionally
corresponding integers returns them verbatim — the two results differ.
(`person` has index 14 and `dog` index 11 in the VOC table.) -/
theorem c6_counterexample_order :
    getTargetIndices [TV.str "person", TV.str "dog"] (some vocNames) = .ok [11, 14] ∧
    getTargetIndices [TV.int 14, TV.int 11] (some vocNames) = .ok [14, 11] ∧
    getTargetIndices [TV.str "person", TV.str "dog"] (some vocNames)
      ≠ getTargetIndices [TV.int 14, TV.int 11] (some vocNames) := by
  refine ⟨by decide, by decide, by decide⟩

/-- C6 (amended): for a duplicate-free name table and a non-empty list of
distinct names each present in the table, `get_target_indices` returns the
matched indices in table-enumeration order and agrees with
`get_target_indices` applied to those integer indices (i.e. to the
corresponding integers taken in ascending table order); moreover, with a
duplicate-free table, any unmatched name raises `ValueError`. -/
theorem c6_target_resolution_equiv (L T : List String) (hL : L.Nodup) (hne : T ≠ []) :
    (T.Nodup → (∀ t ∈ T, t ∈ L) →
      getTargetIndices (T.map TV.str) (some L)
        = .ok (targetIndicesAux 0 L (T.map TV.str)) ∧
      getTargetIndices ((targetIndicesAux 0 L (T.map TV.str)).map TV.int) (some L)
        = .ok (targetIndicesAux 0 L (T.map TV.str))) ∧
    (∀ t₀ ∈ T, t₀ ∉ L →
      ∃ msg, getTargetIndices (T.map TV.str) (some L) = .error (.valueError msg)) := by
  constructor
  · intro hT hsub
    refine ⟨getTargetIndices_str_ok hL hT hne hsub, ?_⟩
    have hlen := targetIndicesAux_length_of_nodup hL hT hsub
    have hne' : targetIndicesAux 0 L (T.map TV.str) ≠ [] := by
      intro h
      rw [h] at hlen
      exact hne (List.length_eq_zero.mp hlen.symm)
    exact getTargetIndices_int_ok _ hne' _
  · intro t₀ ht₀T ht₀L
    exact getTargetIndices_str_err hL hne ht₀T ht₀L

/-- C6 witness: the amended equivalence evaluated on the VOC table with
targets `["bicycle", "bottle"]` (indices 1 and 4). -/
theorem c6_target_resolution_equiv_witness :
    getTargetIndices [TV.str "bicycle", TV.str "bottle"] (some vocNames) = .ok [1, 4] ∧
    getTargetIndices [TV.int 1, TV.int 4] (some vocNames) = .ok [1, 4] := by
  have h := (c6_target_resolution_equiv vocNames ["bicycle", "bottle"]
    (by decide) (by decide)).1 (by decide) (by decide)
  exact ⟨h.1.trans (by decide), h.2.trans (by decide)⟩

/-- C7: `explains_all` returns `True` exactly for the three reserved
spellings of the all-classes sentinel: the integer `-1`, the singleton
sequence `[-1]`, and the string `"-1"`. -/
theorem c7_explains_all_iff (t : Targets) :
    explainsAll t = true ↔
      t = .int (-1) ∨ t = .seq [.int (-1)] ∨ t = .str "-1" := by
  cases t with
  | int z => simp [explainsAll]
  | str s => simp [explainsAll]
  | seq ts =>
      cases ts with
      | nil => simp [explainsAll]
      | cons a rest =>
          cases rest with
          | nil => cases a <;> simp [explainsAll, TV.eqNegOne]
          | cons b rest' => simp [explainsAll]

/-- C7 witness: the singleton-sequence spelling of the sentinel. -/
theorem c7_explains_all_iff_witness : explainsAll (.seq [.int (-1)]) = true :=
  (c7_explains_all_iff (.seq [.int (-1)])).mpr (Or.inr (Or.inl rfl))

/-- C9 counterexample: with a name table containing a duplicate label, a list
of distinct present names makes `get_target_indices` raise `ValueError`
instead of returning the matched indices. -/
theorem c9_counterexample_dup_table :
    getTargetIndices [TV.str "a", TV.str "b"] (some ["a", "b", "a"])
      = .error (.valueError "No all label names found in label_names. Check spelling.") := by
  decide

/-- C9 (amended): for a duplicate-free name table and distinct names all
present in it, `get_target_indices` returns the matched indices in ascending
table-enumeration order, and the result is invariant under permuting the
targets list. -/
theorem c9_sorted_order_invariant (L T T' : List String) (hL : L.Nodup)
    (hT : T.Nodup) (hne : T ≠ []) (hsub : ∀ t ∈ T, t ∈ L) (hperm : T'.Perm T) :
    getTargetIndices (T'.map TV.str) (some L)
      = .ok (targetIndicesAux 0 L (T.map TV.str)) ∧
    (targetIndicesAux 0 L (T.map TV.str)).Sorted (· < ·) := by
  have hT' : T'.Nodup := hperm.nodup_iff.mpr hT
  have hne' : T' ≠ [] := by
    intro h
    rw [h] at hperm
    exact hne hperm.nil_eq.symm
  have hsub' : ∀ t ∈ T', t ∈ L := fun t ht => hsub t (hperm.mem_iff.mp ht)
  have hok := getTargetIndices_str_ok hL hT' hne' hsub'
  have hcongr : targetIndicesAux 0 L (T'.map TV.str) = targetIndicesAux 0 L (T.map TV.str) :=
    targetIndicesAux_congr L
      (fun s => by rw [str_mem_map_str, str_mem_map_str]; exact hperm.mem_iff) 0
  exact ⟨hcongr ▸ hok, targetIndicesAux_sorted L _ 0⟩

/-- C9 witness: `["bottle", "bicycle"]` (reversed order) resolves to the same
ascending index list `[1, 4]` as `["bicycle", "bottle"]` on the VOC table. -/
theorem c9_sorted_order_invariant_witness :
    getTargetIndices [TV.str "bottle", TV.str "bicycle"] (some vocNames) = .ok [1, 4] := by
  have h := c9_sorted_order_invariant vocNames ["bicycle", "bottle"] ["bottle", "bicycle"]
    (by decide) (by decide) (by decide) (by decide) (by decide)
  exact h.1.trans (by decide)

/-! ## Saliency-map scaling (`openvino_xai/common/utils.py`, lines 60-87)

Arrays are modelled as NumPy stores them: a shape, the row-major flat data,
and a dtype.  Values are exact rationals; float32 arithmetic is idealised as
exact (the spec's tolerance remarks stem from this rounding). -/

/-- The NumPy dtypes occurring in the scaling pipeline. -/
inductive DType where
  | f32
  | u8
deriving DecidableEq, Repr

/-- A NumPy array: shape, row-major flat data, dtype. -/
structure NpArr where
  shape : List ℕ
  data : List ℚ
  dtype : DType
deriving DecidableEq, Repr

/-- The `1e-12` epsilon added to the scaling denominator (line 72). -/
def scalingEps : ℚ := 1 / 10 ^ 12

/-- `astype(np.uint8)` on one value: float-to-unsigned-int conversion
truncates toward zero.  Every value the pipeline casts lies in `[0, 255)`,
where truncation coincides with `Int.toNat ∘ Int.floor` used here. -/
def toUint8 (q : ℚ) : ℚ := ((Int.toNat ⌊q⌋ : ℕ) : ℚ)

/-- `np.min` of one flattened map (`get_min_max`, line 85).  NumPy raises on
an empty input; the `0` default is junk never exercised by the theorems. -/
def listMin : List ℚ → ℚ
  | [] => 0
  | [a] => a
  | a :: b :: l => min a (listMin (b :: l))

/-- `np.max` of one flattened map (`get_min_max`, line 86). -/
def listMax : List ℚ → ℚ
  | [] => 0
  | [a] => a
  | a :: b :: l => max a (listMax (b :: l))

/-- The `reshape((num_maps, h * w))` view of the flat data (line 69): `n`
consecutive rows of `sz` entries each. -/
def chunksOfCount {α : Type} : ℕ → ℕ → List α → List (List α)
  | 0, _, _ => []
  | n + 1, sz, l => l.take sz :: chunksOfCount n sz (l.drop sz)

/-- Line 72, per row of the `(num_maps, h*w)` view:
`max_value * (saliency_map - min_values[:, None])
  / (max_values - min_values + 1e-12)[:, None]`. -/
def scaleRow (max_value : ℚ) (row : List ℚ) : List ℚ :=
  let mn := listMin row
  let mx := listMax row
  row.map (fun v => max_value * (v - mn) / (mx - mn + scalingEps))

/-- `astype(np.uint8)` on a whole array (line 79). -/
def astypeU8 (x : NpArr) : NpArr := ⟨x.shape, x.data.map toUint8, .u8⟩

/-- Lines 78-80: cast to uint8 when requested, otherwise return as is. -/
def finishCast (cast_to_uint8 : Bool) (x : NpArr) : NpArr :=
  if cast_to_uint8 then astypeU8 x else x

/-- `scaling(saliency_map, cast_to_uint8, max_value)` from
`openvino_xai/common/utils.py`, lines 60-80.
* 2D input `[h, w]`: `saliency_map[np.newaxis, ...]` makes it `[1, h, w]`
  (line 65), the 3D path below runs with one map, and `np.squeeze` (line 76)
  drops every singleton axis of `[1, h, w]` (the `filter`).
* 3D input `[n, h, w]`: cast to float32 (dtype `.f32`; values are exact
  here), reshape to `(n, h*w)` (the `chunksOfCount` view), min-max scale each
  row (line 72), reshape back — flattening the scaled rows restores the
  row-major data.
* any other rank: the `num_maps, h, w = saliency_map.shape` unpacking raises
  in NumPy; junk value, never exercised by the theorems. -/
def scaling (x : NpArr) (cast_to_uint8 : Bool) (max_value : ℚ) : NpArr :=
  match x.shape with
  | [h, w] =>
      finishCast cast_to_uint8
        ⟨[1, h, w].filter (fun d => d != 1),
         ((chunksOfCount 1 (h * w) x.data).map (scaleRow max_value)).flatten, .f32⟩
  | [num_maps, h, w] =>
      finishCast cast_to_uint8
        ⟨[num_maps, h, w],
         ((chunksOfCount num_maps (h * w) x.data).map (scaleRow max_value)).flatten, .f32⟩
  | _ => x

/-- One map through scale-then-cast: the per-row composition realised by
`scaling(..., cast_to_uint8=True)` with the default `max_value=255`. -/
def u8Row (row : List ℚ) : List ℚ := (scaleRow 255 row).map toUint8

/-- The elementwise affine map applied to one row by `scaleRow 255`. -/
def gRow (row : List ℚ) (v : ℚ) : ℚ :=
  255 * (v - listMin row) / (listMax row - listMin row + scalingEps)

lemma scaleRow_eq (row : List ℚ) : scaleRow 255 row = row.map (gRow row) := rfl

lemma u8Row_eq_map (row : List ℚ) : u8Row row = row.map (toUint8 ∘ gRow row) := by
  simp [u8Row, scaleRow_eq, List.map_map]

lemma u8Row_length (row : List ℚ) : (u8Row row).length = row.length := by
  simp [u8Row, scaleRow]

lemma chunksOfCount_length {α : Type} (n sz : ℕ) (l : List α) :
    (chunksOfCount n sz l).length = n := by
  induction n generalizing l with
  | zero => rfl
  | succ n ih => simp [chunksOfCount, ih]

lemma length_mem_chunksOfCount {α : Type} {n sz : ℕ} {l : List α}
    (hlen : l.length = n * sz) {r : List α} (hr : r ∈ chunksOfCount n sz l) :
    r.length = sz := by
  induction n generalizing l with
  | zero => simp [chunksOfCount] at hr
  | succ n ih =>
      simp only [chunksOfCount, List.mem_cons] at hr
      rw [Nat.succ_mul] at hlen
      rcases hr with rfl | hr
      · rw [List.length_take]; omega
      · exact ih (by rw [List.length_drop]; omega) hr

lemma chunksOfCount_flatten {α : Type} {sz : ℕ} (rs : List (List α))
    (hsz : ∀ r ∈ rs, r.length = sz) :
    chunksOfCount rs.length sz rs.flatten = rs := by
  induction rs with
  | nil => rfl
  | cons r rs ih =>
      have hr : r.length = sz := hsz r (by simp)
      simp only [List.length_cons, chunksOfCount, List.flatten_cons]
      rw [List.take_left' hr, List.drop_left' hr,
        ih (fun q hq => hsz q (List.mem_cons_of_mem _ hq))]

lemma listMin_le {l : List ℚ} : ∀ a ∈ l, listMin l ≤ a := by
  induction l with
  | nil => simp
  | cons x l ih =>
      cases l with
      | nil => intro a ha; simp only [List.mem_singleton] at ha; simp [ha, listMin]
      | cons y t =>
          intro a ha
          rcases List.mem_cons.mp ha with rfl | ha
          · exact min_le_left _ _
          · exact le_trans (min_le_right _ _) (ih a ha)

lemma le_listMax {l : List ℚ} : ∀ a ∈ l, a ≤ listMax l := by
  induction l with
  | nil => simp
  | cons x l ih =>
      cases l with
      | nil => intro a ha; simp only [List.mem_singleton] at ha; simp [ha, listMax]
      | cons y t =>
          intro a ha
          rcases List.mem_cons.mp ha with rfl | ha
          · exact le_max_left _ _
          · exact le_trans (ih a ha) (le_max_right _ _)

lemma listMax_mem {l : List ℚ} (h : l ≠ []) : listMax l ∈ l := by
  induction l with
  | nil => cases h rfl
  | cons x l ih =>
      cases l with
      | nil => simp [listMax]
      | cons y t =>
          rw [listMax]
          rcases le_total x (listMax (y :: t)) with hle | hle
          · rw [max_eq_right hle]; exact List.mem_cons_of_mem _ (ih (by simp))
          · rw [max_eq_left hle]; simp

lemma listMin_le_listMax {l : List ℚ} (h : l ≠ []) : listMin l ≤ listMax l :=
  listMin_le _ (listMax_mem h)

lemma listMin_map_mono {f : ℚ → ℚ} (hf : Monotone f) :
    ∀ {l : List ℚ}, l ≠ [] → listMin (l.map f) = f (listMin l) := by
  intro l
  induction l with
  | nil => intro h; cases h rfl
  | cons x l ih =>
      intro _
      cases l with
      | nil => simp [listMin]
      | cons y t =>
          simp only [List.map_cons]
          rw [listMin, listMin, ← List.map_cons f y t, ih (by simp), hf.map_min]

lemma listMax_map_mono {f : ℚ → ℚ} (hf : Monotone f) :
    ∀ {l : List ℚ}, l ≠ [] → listMax (l.map f) = f (listMax l) := by
  intro l
  induction l with
  | nil => intro h; cases h rfl
  | cons x l ih =>
      intro _
      cases l with
      | nil => simp [listMax]
      | cons y t =>
          simp only [List.map_cons]
          rw [listMax, listMax, ← List.map_cons f y t, ih (by simp), hf.map_max]

lemma scalingEps_pos : 0 < scalingEps := by norm_num [scalingEps]

lemma gRow_denom_pos {row : List ℚ} (h : row ≠ []) :
    0 < listMax row - listMin row + scalingEps := by
  have := listMin_le_listMax h
  have := scalingEps_pos
  linarith

lemma gRow_mono {row : List ℚ} (h : row ≠ []) : Monotone (gRow row) := by
  intro a b hab
  unfold gRow
  exact (div_le_div_iff_of_pos_right (gRow_denom_pos h)).mpr (by linarith)

lemma gRow_min (row : List ℚ) : gRow row (listMin row) = 0 := by
  simp [gRow]

lemma gRow_bounds {row : List ℚ} (h : row ≠ []) {v : ℚ} (hv : v ∈ row) :
    0 ≤ gRow row v ∧ gRow row v < 255 := by
  have h1 : listMin row ≤ v := listMin_le v hv
  have h2 : v ≤ listMax row := le_listMax v hv
  have hden := gRow_denom_pos h
  have hε := scalingEps_pos
  constructor
  · exact div_nonneg (by linarith) (le_of_lt hden)
  · rw [gRow, div_lt_iff hden]; nlinarith

lemma toUint8_nonneg (q : ℚ) : 0 ≤ toUint8 q := by
  unfold toUint8; positivity

lemma toUint8_mono : Monotone toUint8 := by
  intro a b hab
  unfold toUint8
  exact_mod_cast Int.toNat_le_toNat (Int.floor_le_floor hab)

lemma toUint8_natCast (k : ℕ) : toUint8 (k : ℚ) = k := by
  unfold toUint8; simp

lemma toUint8_le_254 {q : ℚ} (h : q < 255) : toUint8 q ≤ 254 := by
  unfold toUint8
  have h1 : ⌊q⌋ < 255 := Int.floor_lt.mpr (by exact_mod_cast h)
  have h2 : ⌊q⌋.toNat ≤ 254 := by omega
  exact_mod_cast h2

/-- The kernel rounding fact behind idempotence: re-scaling a uint8 value
`k ≤ 254` of a map whose min is 0 and max is 254 reproduces `k`. -/
lemma toUint8_rescale (k : ℕ) (hk : k ≤ 254) :
    toUint8 (255 * (k : ℚ) / (254 + scalingEps)) = (k : ℚ) := by
  have hε : (0:ℚ) < scalingEps := scalingEps_pos
  have hεle : scalingEps ≤ 1 := by norm_num [scalingEps]
  have hden : (0:ℚ) < 254 + scalingEps := by linarith
  have hk0 : (0:ℚ) ≤ (k:ℚ) := Nat.cast_nonneg k
  have hk' : (k:ℚ) ≤ 254 := by exact_mod_cast hk
  have h1 : ((k:ℤ):ℚ) ≤ 255 * (k:ℚ) / (254 + scalingEps) := by
    rw [le_div_iff hden]
    push_cast
    nlinarith
  have h2 : 255 * (k:ℚ) / (254 + scalingEps) < (k:ℤ) + 1 := by
    rw [div_lt_iff hden]
    push_cast
    nlinarith
  unfold toUint8
  rw [Int.floor_eq_iff.mpr ⟨h1, h2⟩]
  simp

/-- The scaled maximum of a map whose range is at least `254 * 1e-12` casts
to exactly 254 (in exact arithmetic it is `255r/(r+eps) < 255`). -/
lemma toUint8_ratio_max {r : ℚ} (hr : 254 * scalingEps ≤ r) :
    toUint8 (255 * r / (r + scalingEps)) = 254 := by
  have hε : (0:ℚ) < scalingEps := scalingEps_pos
  have hr0 : (0:ℚ) ≤ r := le_trans (by positivity) hr
  have hden : (0:ℚ) < r + scalingEps := by linarith
  have h1 : ((254:ℤ):ℚ) ≤ 255 * r / (r + scalingEps) := by
    rw [le_div_iff hden]
    push_cast
    linarith
  have h2 : 255 * r / (r + scalingEps) < (254:ℤ) + 1 := by
    rw [div_lt_iff hden]
    push_cast
    linarith
  unfold toUint8
  rw [Int.floor_eq_iff.mpr ⟨h1, h2⟩]
  simp

lemma u8Row_ne_nil {row : List ℚ} (h : row ≠ []) : u8Row row ≠ [] := by
  rw [u8Row_eq_map]
  simpa using h

lemma u8Row_min {row : List ℚ} (h : row ≠ []) : listMin (u8Row row) = 0 := by
  rw [u8Row_eq_map, listMin_map_mono (toUint8_mono.comp (gRow_mono h)) h]
  show toUint8 (gRow row (listMin row)) = 0
  rw [gRow_min]
  exact_mod_cast toUint8_natCast 0

lemma u8Row_max {row : List ℚ} (h : row ≠ [])
    (hr : 254 * scalingEps ≤ listMax row - listMin row) :
    listMax (u8Row row) = 254 := by
  rw [u8Row_eq_map, listMax_map_mono (toUint8_mono.comp (gRow_mono h)) h]
  show toUint8 (gRow row (listMax row)) = 254
  rw [gRow]
  exact toUint8_ratio_max hr

lemma u8Row_mem {row : List ℚ} (h : row ≠ []) {u : ℚ} (hu : u ∈ u8Row row) :
    ∃ k : ℕ, k ≤ 254 ∧ u = (k : ℚ) := by
  rw [u8Row_eq_map] at hu
  obtain ⟨v, hv, rfl⟩ := List.mem_map.mp hu
  refine ⟨⌊gRow row v⌋.toNat, ?_, rfl⟩
  have hlt := (gRow_bounds h hv).2
  have h254 : toUint8 (gRow row v) ≤ 254 := toUint8_le_254 hlt
  unfold toUint8 at h254
  exact_mod_cast h254

/-- Per-map idempotence of scale-then-cast, under the amended range
hypothesis. -/
lemma u8Row_idem {row : List ℚ} (h : row ≠ [])
    (hcond : listMax row - listMin row = 0 ∨
      254 * scalingEps ≤ listMax row - listMin row) :
    u8Row (u8Row row) = u8Row row := by
  rcases hcond with h0 | hge
  · have hzrow : u8Row row = row.map (fun _ => (0:ℚ)) := by
      rw [u8Row_eq_map]
      apply List.map_congr_left
      intro v hv
      have h1 : listMin row ≤ v := listMin_le v hv
      have h2 : v ≤ listMax row := le_listMax v hv
      have hv' : v = listMin row := by linarith
      show toUint8 (gRow row v) = 0
      rw [hv', gRow_min]
      exact_mod_cast toUint8_natCast 0
    rw [hzrow]
    have hne' : row.map (fun _ => (0:ℚ)) ≠ [] := by simpa using h
    have hmin0 : listMin (row.map (fun _ => (0:ℚ))) = 0 := by
      rw [listMin_map_mono monotone_const h]
    have hmax0 : listMax (row.map (fun _ => (0:ℚ))) = 0 := by
      rw [listMax_map_mono monotone_const h]
    rw [u8Row_eq_map, List.map_map]
    apply List.map_congr_left
    intro v _
    show toUint8 (gRow (row.map fun _ => (0:ℚ)) 0) = 0
    rw [gRow, hmin0, hmax0]
    norm_num
    exact_mod_cast toUint8_natCast 0
  · have hmn := u8Row_min h
    have hmx := u8Row_max h hge
    have heach : ∀ u ∈ u8Row row, (toUint8 ∘ gRow (u8Row row)) u = u := by
      intro u hu
      obtain ⟨k, hk, rfl⟩ := u8Row_mem h hu
      show toUint8 (gRow (u8Row row) (k:ℚ)) = (k:ℚ)
      rw [gRow, hmn, hmx, sub_zero, sub_zero]
      exact toUint8_rescale k hk
    conv_lhs => rw [u8Row_eq_map]
    calc (u8Row row).map (toUint8 ∘ gRow (u8Row row))
        = (u8Row row).map id := List.map_congr_left (fun a ha => heach a ha)
      _ = u8Row row := List.map_id _

lemma scaling_eval_3d (n h w : ℕ) (d : List ℚ) (dt : DType) :
    scaling ⟨[n, h, w], d, dt⟩ true 255
      = ⟨[n, h, w], ((chunksOfCount n (h * w) d).map u8Row).flatten, .u8⟩ := by
  show astypeU8 ⟨[n, h, w], ((chunksOfCount n (h * w) d).map (scaleRow 255)).flatten, .f32⟩ = _
  simp only [astypeU8, List.map_flatten, List.map_map]
  rfl

lemma scaling_eval_2d {h w : ℕ} (hh : h ≠ 1) (hw : w ≠ 1) (d : List ℚ) (dt : DType) :
    scaling ⟨[h, w], d, dt⟩ true 255
      = ⟨[h, w], ((chunksOfCount 1 (h * w) d).map u8Row).flatten, .u8⟩ := by
  have hh' : (h != 1) = true := by simpa using hh
  have hw' : (w != 1) = true := by simpa using hw
  show astypeU8 ⟨[1, h, w].filter (fun d => d != 1),
      ((chunksOfCount 1 (h * w) d).map (scaleRow 255)).flatten, .f32⟩ = _
  simp only [astypeU8, List.map_flatten, List.map_map, List.filter, hh', hw']
  rfl

lemma chunks_of_u8Rows_flatten {n sz : ℕ} {d : List ℚ} (hlen : d.length = n * sz) :
    chunksOfCount n sz (((chunksOfCount n sz d).map u8Row).flatten)
      = (chunksOfCount n sz d).map u8Row := by
  have hlenmap : ((chunksOfCount n sz d).map u8Row).length = n := by
    rw [List.length_map, chunksOfCount_length]
  have key := chunksOfCount_flatten ((chunksOfCount n sz d).map u8Row) (fun r hr => by
    obtain ⟨row, hrow, rfl⟩ := List.mem_map.mp hr
    rw [u8Row_length, length_mem_chunksOfCount hlen hrow])
  rwa [hlenmap] at key

lemma chunk_row_ne_nil {n sz : ℕ} {d : List ℚ} (hlen : d.length = n * sz)
    (hpos : 0 < sz) {row : List ℚ} (hrow : row ∈ chunksOfCount n sz d) : row ≠ [] :=
  List.ne_nil_of_length_pos (by rw [length_mem_chunksOfCount hlen hrow]; exact hpos)

/-- The scaled-and-cast data is unchanged by a second pass, under the amended
per-map range hypothesis. -/
lemma u8Rows_data_idem {n sz : ℕ} {d : List ℚ} (hlen : d.length = n * sz)
    (hpos : 0 < sz)
    (hrange : ∀ row ∈ chunksOfCount n sz d,
      listMax row - listMin row = 0 ∨ 254 * scalingEps ≤ listMax row - listMin row) :
    ((chunksOfCount n sz (((chunksOfCount n sz d).map u8Row).flatten)).map u8Row).flatten
      = ((chunksOfCount n sz d).map u8Row).flatten := by
  rw [chunks_of_u8Rows_flatten hlen, List.map_map]
  congr 1
  apply List.map_congr_left
  intro row hrow
  exact u8Row_idem (chunk_row_ne_nil hlen hpos hrow) (hrange row hrow)

/-- Every value of the scaled-and-cast data is a natural number in `[0, 254]`,
hence in `[0, 255]`. -/
lemma u8Rows_data_bounds {n sz : ℕ} {d : List ℚ} (hlen : d.length = n * sz)
    (hpos : 0 < sz) :
    ∀ v ∈ ((chunksOfCount n sz d).map u8Row).flatten, 0 ≤ v ∧ v ≤ 255 := by
  intro v hv
  obtain ⟨l, hl, hvl⟩ := List.mem_flatten.mp hv
  obtain ⟨row, hrow, rfl⟩ := List.mem_map.mp hl
  obtain ⟨k, hk, rfl⟩ := u8Row_mem (chunk_row_ne_nil hlen hpos hrow) hvl
  refine ⟨Nat.cast_nonneg k, ?_⟩
  have : (k:ℚ) ≤ 254 := by exact_mod_cast hk
  linarith

unseal Rat.add Rat.mul Rat.sub Rat.inv in
/-- C1 counterexample: a map whose value range is of the order of the
`1e-12` epsilon is not a fixed point of scale-then-cast.  The map
`[0, 1e-12]` scales to `[0, 127]` (the epsilon halves the ratio), and
re-scaling `[0, 127]` gives `[0, 254]`. -/
theorem c1_counterexample_idempotence :
    scaling (scaling ⟨[1, 1, 2], [0, 1 / 10 ^ 12], .f32⟩ true 255) true 255
      ≠ scaling ⟨[1, 1, 2], [0, 1 / 10 ^ 12], .f32⟩ true 255 := by
  decide

/-- C1 (amended): with `cast_to_uint8=True`, `scaling` is idempotent on every
3D map, and on every 2D map without singleton dimensions, provided each
per-map value range is 0 or at least `254 * 1e-12` (ranges of the order of
the epsilon break idempotence); the output values always lie in `[0, 255]`
and the output dtype is uint8. -/
theorem c1_scaling_idempotent_bounded (x : NpArr) (n h w : ℕ)
    (hshape : x.shape = [n, h, w] ∨ (x.shape = [h, w] ∧ n = 1 ∧ h ≠ 1 ∧ w ≠ 1))
    (hlen : x.data.length = n * (h * w))
    (hpos : 0 < h * w)
    (hrange : ∀ row ∈ chunksOfCount n (h * w) x.data,
      listMax row - listMin row = 0 ∨ 254 * scalingEps ≤ listMax row - listMin row) :
    scaling (scaling x true 255) true 255 = scaling x true 255 ∧
    (∀ v ∈ (scaling x true 255).data, 0 ≤ v ∧ v ≤ 255) ∧
    (scaling x true 255).dtype = .u8 := by
  obtain ⟨s, d, dt⟩ := x
  dsimp only at hshape hlen hrange
  rcases hshape with rfl | ⟨rfl, rfl, hh, hw⟩
  · rw [scaling_eval_3d]
    refine ⟨?_, u8Rows_data_bounds hlen hpos, rfl⟩
    rw [scaling_eval_3d, u8Rows_data_idem hlen hpos hrange]
  · rw [scaling_eval_2d hh hw]
    refine ⟨?_, u8Rows_data_bounds hlen hpos, rfl⟩
    rw [scaling_eval_2d hh hw, u8Rows_data_idem hlen hpos hrange]

unseal Rat.add Rat.mul Rat.sub Rat.inv in
/-- C1 witness: the amended idempotence on the 2×2 map `[0, 10, 20, 255]`. -/
theorem c1_scaling_idempotent_bounded_witness :
    scaling (scaling ⟨[2, 2], [0, 10, 20, 255], .f32⟩ true 255) true 255
      = scaling ⟨[2, 2], [0, 10, 20, 255], .f32⟩ true 255 :=
  (c1_scaling_idempotent_bounded ⟨[2, 2], [0, 10, 20, 255], .f32⟩ 1 2 2
    (Or.inr ⟨rfl, rfl, by decide, by decide⟩) (by decide) (by decide) (by decide)).1

unseal Rat.add Rat.mul Rat.sub Rat.inv in
/-- C2 counterexample: the non-constant map `[0, 2e-12]` scales to
`[0, 170]` — its maximum is neither 254 nor 255, because the value range is
of the order of the `1e-12` epsilon. -/
theorem c2_counterexample_tiny_range :
    scaling ⟨[1, 1, 2], [0, 2 / 10 ^ 12], .f32⟩ true 255 = ⟨[1, 1, 2], [0, 170], .u8⟩ ∧
    (0 : ℚ) ≠ 2 / 10 ^ 12 ∧ (170 : ℚ) ≠ 254 ∧ (170 : ℚ) ≠ 255 := by
  refine ⟨by decide, by decide, by decide, by decide⟩

/-- C2 (amended): for every map (row of the `(n, h*w)` view) whose value
range is at least `254 * 1e-12`, the corresponding scaled map has minimum
exactly 0 and maximum in `{254, 255}` (exactly 254 in exact arithmetic; 255
can only arise from float32 rounding of the epsilon). -/
theorem c2_scaling_surjective (x : NpArr) (n h w i : ℕ) (row : List ℚ)
    (hshape : x.shape = [n, h, w]) (hlen : x.data.length = n * (h * w))
    (hpos : 0 < h * w)
    (hrow : (chunksOfCount n (h * w) x.data)[i]? = some row)
    (hr : 254 * scalingEps ≤ listMax row - listMin row) :
    (chunksOfCount n (h * w) (scaling x true 255).data)[i]? = some (u8Row row) ∧
    listMin (u8Row row) = 0 ∧
    (listMax (u8Row row) = 254 ∨ listMax (u8Row row) = 255) := by
  obtain ⟨s, d, dt⟩ := x
  dsimp only at hshape hlen hrow ⊢
  subst hshape
  rw [scaling_eval_3d]
  have hne : row ≠ [] := chunk_row_ne_nil hlen hpos (List.getElem?_mem hrow)
  refine ⟨?_, u8Row_min hne, Or.inl (u8Row_max hne hr)⟩
  dsimp only
  rw [chunks_of_u8Rows_flatten hlen, List.getElem?_map, hrow, Option.map_some']

unseal Rat.add Rat.mul Rat.sub Rat.inv in
/-- C2 witness: the map `[0, 255]` scales to `[0, 254]` with minimum 0. -/
theorem c2_scaling_surjective_witness :
    (chunksOfCount 1 (1 * 2)
        (scaling ⟨[1, 1, 2], [0, 255], .f32⟩ true 255).data)[0]? = some (u8Row [0, 255]) ∧
    listMin (u8Row [0, 255]) = 0 ∧
    (listMax (u8Row [0, 255]) = 254 ∨ listMax (u8Row [0, 255]) = 255) :=
  c2_scaling_surjective ⟨[1, 1, 2], [0, 255], .f32⟩ 1 1 2 0 [0, 255]
    rfl (by decide) (by decide) (by decide) (by decide)

/-- C10 counterexample: a 1×2 two-dimensional map comes back with shape
`[2]`: `np.squeeze` after the internal `newaxis` removes every singleton
axis, including the caller's own. -/
theorem c10_counterexample_squeeze :
    (scaling ⟨[1, 2], [0, 1], .f32⟩ true 255).shape = [2] ∧
    (scaling ⟨[1, 2], [0, 1], .f32⟩ true 255).shape ≠ [1, 2] := by
  refine ⟨by decide, by decide⟩

/-- C10 (amended): `scaling` preserves the shape of every 3D input and of
every 2D input both of whose dimensions differ from 1, provided the spatial
size `h * w` is positive; a 2D input with a singleton dimension is squeezed
to a lower rank.  The positivity hypothesis keeps the statement on the
domain where the source terminates: on a zero-size spatial input `np.min`
raises `ValueError` ("zero-size array to reduction operation") inside
`get_min_max`, a path the model's total `listMin`/`listMax` do not
reproduce. -/
theorem c10_scaling_preserves_shape (x : NpArr) (n h w : ℕ) (b : Bool) (mv : ℚ)
    (hpos : 0 < h * w) :
    (x.shape = [n, h, w] → (scaling x b mv).shape = x.shape) ∧
    (x.shape = [h, w] → h ≠ 1 → w ≠ 1 → (scaling x b mv).shape = x.shape) := by
  obtain ⟨s, d, dt⟩ := x
  dsimp only
  constructor
  · rintro rfl
    cases b <;> simp [scaling, finishCast, astypeU8]
  · rintro rfl hh hw
    have hh' : (h != 1) = true := by simpa using hh
    have hw' : (w != 1) = true := by simpa using hw
    cases b <;> simp [scaling, finishCast, astypeU8, List.filter, hh', hw']

/-- C10 witness: shape preservation on a 2×3×4 stack. -/
theorem c10_scaling_preserves_shape_witness :
    (scaling ⟨[2, 3, 4], List.replicate 24 0, .f32⟩ true 255).shape = [2, 3, 4] :=
  (c10_scaling_preserves_shape ⟨[2, 3, 4], List.replicate 24 0, .f32⟩ 2 3 4 true 255
    (by decide)).1 rfl

/-! ## IR-graph target-node resolution
(`openvino_xai/insertion/parse_model.py`) -/

/-- Modelled from the spec: the model families the graph inspector
dispatches on (`ModelType` lives in `insertion_parameters.py`, whose source
is not in the tree; the spec's convolutional and transformer families). -/
inductive ModelType where
  | CNN
  | TRANSFORMER
deriving DecidableEq, Repr

/-- One graph node as queried by the parser: OpenVINO type name, friendly
name, the static shape of each output port (dimension lengths as returned by
`get_length()`), and for each input port the index — into the model's
ordered op list — of the node feeding it. -/
structure ONode where
  type_name : String
  friendly_name : String
  output_shapes : List (List ℤ)
  input_sources : List ℕ
deriving DecidableEq, Repr

/-- An OV model through `get_ordered_ops()`: ops in topological order. -/
structure OVModel where
  ops : List ONode
deriving DecidableEq, Repr

/-- `node.input(i).get_source_output().get_node()`. -/
def sourceNode (m : OVModel) (nd : ONode) (i : ℕ) : Option ONode :=
  nd.input_sources[i]? >>= fun j => m.ops[j]?

/-- `partial_shape[i].get_length()`; indexing beyond the rank raises in
OpenVINO — the default is junk, never exercised by the theorems (all
instantiated shapes have rank 4). -/
def dimAt (s : List ℤ) (i : ℕ) : ℤ := s.getD i 1

/-- Python substring containment (`"Pool" in op.get_friendly_name()`). -/
def strContains (hay needle : String) : Bool :=
  hay.toList.tails.any (fun t => needle.toList.isPrefixOf t)

/-- `IRParser.get_node_by_condition` (lines 24-31): walks `ops`, decrements
`k` at each node satisfying `condition` and returns the node on which `k`
hits zero; `None` (falling off the loop) otherwise — also for `k ≤ 0`,
since `k == 0` is only tested after a decrement. -/
def getNodeByCondition (ops : List ONode) (condition : ONode → Bool) (k : ℤ) :
    Option ONode :=
  match ops with
  | [] => none
  | op :: rest =>
      if condition op then
        if k - 1 = 0 then some op else getNodeByCondition rest condition (k - 1)
      else getNodeByCondition rest condition k

/-- `IRParser._is_op_w_single_spacial_output` (lines 59-69): not a
`Constant`, at most one output (a node with none would raise at
`op.output(0)`), rank-4 output with `1 < h < c` and `1 < w < c` in NCHW
reading. -/
def isOpWSingleSpacialOutput (op : ONode) : Bool :=
  if op.type_name = "Constant" then false
  else if op.output_shapes.length > 1 then false
  else
    match op.output_shapes[0]? with
    | none => false
    | some s =>
        if s.length ≠ 4 then false
        else
          let c := dimAt s 1
          let h := dimAt s 2
          let w := dimAt s 3
          decide (1 < h ∧ h < c ∧ 1 < w ∧ w < c)

/-- `IRParser._has_spacial_size` (lines 71-79): reads the output-0 shape both
as NCHW (`h = s[2], w = s[3]`) and as NHWC (`h = s[1], w = s[2]`); spatial
iff either reading has both dims different from 1. -/
def hasSpacialSize (nd : ONode) : Bool :=
  let s := nd.output_shapes.getD 0 []
  let h := dimAt s 2
  let w := dimAt s 3
  let h2 := dimAt s 1
  let w2 := dimAt s 2
  decide ((h ≠ 1 ∧ w ≠ 1) ∨ (h2 ≠ 1 ∧ w2 ≠ 1))

/-- `IRParser._is_pooling_node_wo_spacial_size` (lines 51-57): friendly name
contains `"Pool"` and the output has no spatial extent. -/
def isPoolingNodeWoSpacialSize (nd : ONode) : Bool :=
  strContains nd.friendly_name "Pool" && !(hasSpacialSize nd)

/-- `IRParser._is_add_node_w_two_non_constant_inputs` (lines 81-93): an
`Add` all of whose inputs are rank-3 and fed neither by a `Constant` nor by
a `Convert`. -/
def isAddNodeWTwoNonConstantInputs (m : OVModel) (op : ONode) : Bool :=
  op.type_name == "Add" &&
    (List.range op.input_sources.length).all (fun i =>
      match sourceNode m op i with
      | none => false
      | some src =>
          (src.output_shapes.getD 0 []).length == 3 &&
          src.type_name != "Constant" && src.type_name != "Convert")

/-- Python truthiness of the optional `target_node_name` (`if
target_node_name:` — `None` and the empty string are both falsy). -/
def strTruthy : Option String → Bool
  | none => false
  | some s => s != ""

/-- The explicit-name branch of `IRParserCls.get_target_node`
(lines 131-138): first friendly-name match over the reversed op order,
`ValueError` when absent. -/
def getTargetNodeNamed (m : OVModel) (name : String) : Except PyErr ONode :=
  match getNodeByCondition m.ops.reverse (fun x => x.friendly_name == name) 1 with
  | some target_node => .ok target_node
  | none => .error (.valueError ("Cannot find " ++ name ++ " node."))

/-- `target_node.output(0).get_target_inputs()` mapped to nodes: the ops
consuming the node's output (order: op order). -/
def consumers (m : OVModel) (nd : ONode) : List ONode :=
  match m.ops.indexOf? nd with
  | some j => m.ops.filter (fun c => c.input_sources.contains j)
  | none => []

/-- `IRParserCls.get_post_target_node` (lines 163-184).  With a name, it
resolves the node (the named path of `get_target_node`) and returns its
consumers; without one, only the CNN branch searches — for the last pooling
node without spatial size — and every other case raises `RuntimeError`. -/
def getPostTargetNode (m : OVModel) (model_type : Option ModelType)
    (target_node_name : Option String) : Except PyErr (List ONode) :=
  if strTruthy target_node_name then
    match getTargetNodeNamed m (target_node_name.getD "") with
    | .error e => .error e
    | .ok target_node => .ok (consumers m target_node)
  else
    match model_type with
    | some .CNN =>
        match getNodeByCondition m.ops.reverse isPoolingNodeWoSpacialSize 1 with
        | some last_pooling_node => .ok [last_pooling_node]
        | _ => .error (.runtimeError
            "Cannot find first head node in auto mode, please explicitly provide input parameters.")
    | _ => .error (.runtimeError
        "Cannot find first head node in auto mode, please explicitly provide input parameters.")

/-- `IRParserCls.get_target_node` (lines 118-161).
* explicit (truthy) name: reversed-order exact-name search, `ValueError` if
  absent;
* CNN: `k`-th (over reversed order) node with a single genuinely-spatial
  4D output; failing that, the fallback calls `get_post_target_node(model)`
  — crucially without passing `model_type`, so its CNN pooling search is
  skipped and it raises `RuntimeError` unconditionally, which propagates
  (the subsequent `post_target_node.input(0)`, which would moreover call
  `.input` on a Python list, is unreachable; modelled on the list's head);
* TRANSFORMER: `k`-th add node with non-constant rank-3 inputs;
* every remaining path: `RuntimeError`. -/
def getTargetNode (m : OVModel) (model_type : Option ModelType)
    (target_node_name : Option String) (k : ℤ) : Except PyErr ONode :=
  if strTruthy target_node_name then
    getTargetNodeNamed m (target_node_name.getD "")
  else
    match model_type with
    | some .CNN =>
        match getNodeByCondition m.ops.reverse isOpWSingleSpacialOutput k with
        | some last_op_w_spacial_output => .ok last_op_w_spacial_output
        | none =>
            match getPostTargetNode m none none with
            | .error e => .error e
            | .ok post_target_nodes =>
                match post_target_nodes.head? >>= fun p => sourceNode m p 0 with
                | some target_node =>
                    if hasSpacialSize target_node then .ok target_node
                    else .error (.runtimeError
                      "Cannot find output backbone_node in auto mode, please provide target_layer.")
                | none => .error (.runtimeError
                    "Cannot find output backbone_node in auto mode, please provide target_layer.")
    | some .TRANSFORMER =>
        match getNodeByCondition m.ops.reverse (isAddNodeWTwoNonConstantInputs m) k with
        | some target_node => .ok target_node
        | none => .error (.runtimeError
            "Cannot find output backbone_node in auto mode, please provide target_layer.")
    | none => .error (.runtimeError
        "Cannot find output backbone_node in auto mode, please provide target_layer.")

/-- With rank 1, `get_node_by_condition` is the first match of the list. -/
lemma getNodeByCondition_one (ops : List ONode) (condition : ONode → Bool) :
    getNodeByCondition ops condition 1 = ops.find? condition := by
  induction ops with
  | nil => rfl
  | cons op rest ih =>
      by_cases h : condition op = true
      · rw [getNodeByCondition, if_pos h, if_pos (by norm_num), List.find?_cons_of_pos _ h]
      · rw [getNodeByCondition, if_neg (by simpa using h),
          List.find?_cons_of_neg _ (by simpa using h), ih]

/-- A CNN graph exercising C3's fallback: no node has a genuinely-spatial
single 4D output (the feature map is 4-channel 8×8, so `h < c` fails), but a
pooling node without spatial size exists whose input source is spatial. -/
def gFallback : OVModel :=
  ⟨[⟨"Convolution", "backbone_conv", [[1, 4, 8, 8]], []⟩,
    ⟨"ReduceMean", "GlobalAveragePool_1", [[1, 4, 1, 1]], [0]⟩]⟩

/-- C3: the CNN fallback of `get_target_node` is dead code.  On `gFallback`
the primary spatial search finds nothing, the last pooling node without
spatial size exists (`GlobalAveragePool_1`) and its input source
(`backbone_conv`) has spatial size — the documented fallback should return
that source — yet `get_target_node` raises, because it calls
`get_post_target_node(model)` without forwarding `model_type`, so the
pooling search there is skipped and its unconditional `RuntimeError`
propagates. -/
theorem c3_cnn_fallback_code_bug :
    getNodeByCondition gFallback.ops.reverse isOpWSingleSpacialOutput 1 = none ∧
    getNodeByCondition gFallback.ops.reverse isPoolingNodeWoSpacialSize 1
      = some ⟨"ReduceMean", "GlobalAveragePool_1", [[1, 4, 1, 1]], [0]⟩ ∧
    sourceNode gFallback ⟨"ReduceMean", "GlobalAveragePool_1", [[1, 4, 1, 1]], [0]⟩ 0
      = some ⟨"Convolution", "backbone_conv", [[1, 4, 8, 8]], []⟩ ∧
    hasSpacialSize ⟨"Convolution", "backbone_conv", [[1, 4, 8, 8]], []⟩ = true ∧
    getTargetNode gFallback (some .CNN) none 1
      = .error (.runtimeError
          "Cannot find first head node in auto mode, please explicitly provide input parameters.") := by
  refine ⟨by decide, by decide, by decide, by decide, by decide⟩

/-- A one-node graph for the explicit-name claims. -/
def gNamed : OVModel := ⟨[⟨"Parameter", "input_1", [[1, 3, 8, 8]], []⟩]⟩

/-- C4 counterexample: an explicit name absent from the graph raises a plain
`ValueError` — the code defines no `ResolutionError` class at all, so the
failure is not a `ResolutionError` for any message. -/
theorem c4_counterexample_exception_class :
    getTargetNode gNamed none (some "does_not_exist") 1
      = .error (.valueError "Cannot find does_not_exist node.") ∧
    ∀ s : String, getTargetNode gNamed none (some "does_not_exist") 1
      ≠ .error (.resolutionError s) := by
  have h : getTargetNode gNamed none (some "does_not_exist") 1
      = .error (.valueError "Cannot find does_not_exist node.") := by decide
  exact ⟨h, fun s => by rw [h]; simp⟩

/-- C4 (amended): with an explicit (non-empty) target node name,
`get_target_node` returns the first exact friendly-name match of the
reverse topological order, and raises `ValueError` — there is no dedicated
`ResolutionError` — exactly when no node of the graph has that name. -/
theorem c4_explicit_name_search (m : OVModel) (name : String)
    (mt : Option ModelType) (k : ℤ) (hne : name ≠ "") :
    getTargetNode m mt (some name) k
      = (match m.ops.reverse.find? (fun x => x.friendly_name == name) with
         | some nd => .ok nd
         | none => .error (.valueError ("Cannot find " ++ name ++ " node."))) ∧
    (m.ops.reverse.find? (fun x => x.friendly_name == name) = none ↔
      ∀ nd ∈ m.ops, nd.friendly_name ≠ name) := by
  constructor
  · have ht : strTruthy (some name) = true := by simpa [strTruthy] using hne
    rw [getTargetNode.eq_def, if_pos ht]
    rw [show (some name).getD "" = name from rfl]
    rw [getTargetNodeNamed, getNodeByCondition_one]
  · rw [List.find?_eq_none]
    constructor
    · intro hnone nd hnd hname
      exact absurd (by simpa using hname)
        (by simpa using hnone nd (List.mem_reverse.mpr hnd))
    · intro hall nd hnd
      simpa using hall nd (List.mem_reverse.mp hnd)

/-- C4 witness: the amended search on `gNamed` finds `input_1`. -/
theorem c4_explicit_name_search_witness :
    getTargetNode gNamed none (some "input_1") 1
      = .ok ⟨"Parameter", "input_1", [[1, 3, 8, 8]], []⟩ := by
  have h := (c4_explicit_name_search gNamed "input_1" none 1 (by decide)).1
  exact h.trans (by decide)

/-! ## Visualization pipeline (`openvino_xai/explainer/visualizer.py`) -/

/-- Modelled from the spec: the `Layout` tag of an `Explanation`
(`openvino_xai/explainer/explanation.py` is not in the tree; the spec lists
four layouts — one or multiple maps per image, each grayscale or
color-mapped — and the visualizer source refers to exactly these four
members). -/
inductive Layout where
  | ONE_MAP_PER_IMAGE_GRAY
  | ONE_MAP_PER_IMAGE_COLOR
  | MULTIPLE_MAPS_PER_IMAGE_GRAY
  | MULTIPLE_MAPS_PER_IMAGE_COLOR
deriving DecidableEq, Repr

/-- Modelled from the spec: `GRAY_LAYOUTS`, the grayscale layouts. -/
def GRAY_LAYOUTS : List Layout :=
  [.ONE_MAP_PER_IMAGE_GRAY, .MULTIPLE_MAPS_PER_IMAGE_GRAY]

/-- Modelled from the spec: `COLOR_MAPPED_LAYOUTS`, the color layouts. -/
def COLOR_MAPPED_LAYOUTS : List Layout :=
  [.ONE_MAP_PER_IMAGE_COLOR, .MULTIPLE_MAPS_PER_IMAGE_COLOR]

/-- `Visualizer._apply_colormap` (lines 215-229): uint8 data required, then
grayscale layout required (each failure a `ValueError`; messages
abbreviated), then `cv2.applyColorMap` + BGR→RGB — abstracted as `cmap`
since no claim depends on pixel values — and the two sequential `if`s on the
mutable `explanation.layout` move the gray layout to its color variant.
Returns the updated layout together with the color-mapped data. -/
def applyColormap (cmap : NpArr → NpArr) (layout : Layout) (sal : NpArr) :
    Except PyErr (Layout × NpArr) :=
  if sal.dtype ≠ .u8 then
    .error (.valueError
      "Colormap requires saliency map to has uint8 dtype. Enable 'scaling' flag for Visualizer.")
  else if layout ∉ GRAY_LAYOUTS then
    .error (.valueError "Saliency map to colormap has to be grayscale.")
  else
    let sal2 := cmap sal
    let layout1 : Layout :=
      if layout = .ONE_MAP_PER_IMAGE_GRAY then .ONE_MAP_PER_IMAGE_COLOR else layout
    let layout2 : Layout :=
      if layout1 = .MULTIPLE_MAPS_PER_IMAGE_GRAY then .MULTIPLE_MAPS_PER_IMAGE_COLOR
      else layout1
    .ok (layout2, sal2)

/-- The color variant of a layout (grayscale layouts move to their color
counterpart, color layouts are already there). -/
def colorVariant : Layout → Layout
  | .ONE_MAP_PER_IMAGE_GRAY => .ONE_MAP_PER_IMAGE_COLOR
  | .MULTIPLE_MAPS_PER_IMAGE_GRAY => .MULTIPLE_MAPS_PER_IMAGE_COLOR
  | l => l

/-- C8: `_apply_colormap` succeeds exactly on uint8 grayscale-layout maps,
transitioning the layout to its color variant (which is a color-mapped
layout, so a second colormap request inside the same visualization call hits
the `ValueError` branch — the transition is irreversible); on an
already-color layout, or on non-uint8 data, it raises `ValueError`. -/
theorem c8_colormap_layout_transition (cmap : NpArr → NpArr) (layout : Layout)
    (sal : NpArr) :
    (sal.dtype = .u8 → layout ∈ GRAY_LAYOUTS →
      applyColormap cmap layout sal = .ok (colorVariant layout, cmap sal) ∧
      colorVariant layout ∈ COLOR_MAPPED_LAYOUTS) ∧
    (layout ∈ COLOR_MAPPED_LAYOUTS →
      ∃ msg, applyColormap cmap layout sal = .error (.valueError msg)) ∧
    (sal.dtype ≠ .u8 →
      ∃ msg, applyColormap cmap layout sal = .error (.valueError msg)) := by
  refine ⟨?_, ?_, ?_⟩
  · intro hd hl
    cases layout <;>
      simp_all [applyColormap, GRAY_LAYOUTS, COLOR_MAPPED_LAYOUTS, colorVariant]
  · intro hl
    by_cases hd : sal.dtype = .u8
    · refine ⟨"Saliency map to colormap has to be grayscale.", ?_⟩
      cases layout <;>
        simp_all [applyColormap, GRAY_LAYOUTS, COLOR_MAPPED_LAYOUTS]
    · exact ⟨_, by rw [applyColormap, if_pos hd]⟩
  · intro hd
    exact ⟨_, by rw [applyColormap, if_pos hd]⟩

/-- C8 witness: colormapping a uint8 multi-map grayscale explanation moves
its layout to the multi-map color variant. -/
theorem c8_colormap_layout_transition_witness :
    applyColormap id .MULTIPLE_MAPS_PER_IMAGE_GRAY ⟨[1, 2, 2], [0, 0, 0, 0], .u8⟩
      = .ok (.MULTIPLE_MAPS_PER_IMAGE_COLOR, ⟨[1, 2, 2], [0, 0, 0, 0], .u8⟩) := by
  have h := ((c8_colormap_layout_transition id .MULTIPLE_MAPS_PER_IMAGE_GRAY
    ⟨[1, 2, 2], [0, 0, 0, 0], .u8⟩).1 rfl (by decide)).1
  exact h.trans (by decide)

/-! ## RISE black-box saliency (`openvino_xai/methods/black_box/rise.py`)

The numeric periphery stays abstract where the source calls external
collaborators: the PCG64 bit generator behind `np.random.default_rng`
(interface `RandGen`), `cv2.resize(..., INTER_CUBIC)` (`resizeCubic`), and
the preprocess → infer → postprocess composition (`applyMask`/`forward`,
pure functions — the spec scopes determinism to the aggregation logic, "not
... numerical reproducibility of the underlying inference engine").  What is
embedded concretely is the flow the determinism claim is about: every
random draw is threaded through the generator state freshly created from
`seed` inside the call, and per-trial scores accumulate into the saliency
sums. -/

/-- The slice of the `np.random.Generator` interface used by RISE:
`generator.random()` (one sample), `generator.integers(0, n)`, and
`np.random.default_rng(seed)` — per NumPy's documented semantics a fresh
deterministic stream depending only on `seed`. -/
structure RandGen (σ : Type) where
  init : ℕ → σ
  random : σ → ℚ × σ
  integers : σ → ℕ → ℕ × σ

/-- One row of `rand_generator.random((num_cells, num_cells)) < prob`, as
float32 zeros/ones (`_generate_mask`, lines 187-189; row-major order). -/
def drawRow {σ : Type} (rg : RandGen σ) (prob : ℚ) : ℕ → σ → List ℚ × σ
  | 0, g => ([], g)
  | n + 1, g =>
      let s1 := rg.random g
      let rest := drawRow rg prob n s1.2
      ((if s1.1 < prob then 1 else 0) :: rest.1, rest.2)

/-- The full `num_cells × num_cells` thresholded grid. -/
def drawGrid {σ : Type} (rg : RandGen σ) (prob : ℚ) (cols : ℕ) :
    ℕ → σ → List (List ℚ) × σ
  | 0, g => ([], g)
  | r + 1, g =>
      let row := drawRow rg prob cols g
      let rest := drawGrid rg prob cols r row.2
      (row.1 :: rest.1, rest.2)

/-- `np.ceil` of a nonnegative rational, as a natural number
(`cell_size = np.ceil(np.array(input_size) / num_cells)`). -/
def ratCeilNat (q : ℚ) : ℕ := ⌈q⌉.toNat

/-- `np.clip(mask, 0, 1)` on one entry (line 197). -/
def clip01 (q : ℚ) : ℚ := max 0 (min 1 q)

/-- `RISE._generate_mask(input_size, num_cells, prob, rand_generator)`
(lines 178-198): cell size `ceil(input / num_cells)`; up size
`(num_cells + 1) * cell_size`; thresholded boolean grid; random shifts
`x < cell_size[0]`, `y < cell_size[1]` drawn from the same generator; cubic
upsampling (abstract `resizeCubic`); crop `[x : x + H, y : y + W]`
(list `drop`/`take`, clamping like a NumPy slice); clip to `[0, 1]`. -/
def generateMask {σ : Type} (rg : RandGen σ)
    (resizeCubic : List (List ℚ) → ℕ × ℕ → List (List ℚ))
    (input_size : ℕ × ℕ) (num_cells : ℕ) (prob : ℚ) (g : σ) :
    List (List ℚ) × σ :=
  let cell_h := ratCeilNat ((input_size.1 : ℚ) / num_cells)
  let cell_w := ratCeilNat ((input_size.2 : ℚ) / num_cells)
  let up_size := ((num_cells + 1) * cell_h, (num_cells + 1) * cell_w)
  let grid := drawGrid rg prob num_cells num_cells g
  let xs := rg.integers grid.2 cell_h
  let ys := rg.integers xs.2 cell_w
  let upsampled := resizeCubic grid.1 up_size
  let mask := ((upsampled.drop xs.1).take input_size.1).map
    (fun row => ((row.drop ys.1).take input_size.2).map clip01)
  (mask, ys.2)

/-- `RISE._get_scored_mask` (lines 164-169):
`np.take(raw_scores, target_classes).reshape(-1, 1, 1) * mask` when targets
are given, `raw_scores.reshape(-1, 1, 1) * mask` otherwise (an out-of-range
index raises in NumPy; the 0 default is junk). -/
def scoredMask (raw_scores : List ℚ) (mask : List (List ℚ))
    (target_classes : Option (List ℕ)) : List (List (List ℚ)) :=
  match target_classes with
  | some ts => ts.map (fun t => mask.map (List.map (fun v => raw_scores.getD t 0 * v)))
  | none => raw_scores.map (fun s => mask.map (List.map (fun v => s * v)))

/-- `saliency_maps += sal`: elementwise sum of equally-shaped stacks. -/
def addMaps (a b : List (List (List ℚ))) : List (List (List ℚ)) :=
  List.zipWith (List.zipWith (List.zipWith (· + ·))) a b

/-- `np.zeros((num_targets, H, W))` (line 144). -/
def zerosMaps (n : ℕ) (hw : ℕ × ℕ) : List (List (List ℚ)) :=
  List.replicate n (List.replicate hw.1 (List.replicate hw.2 (0 : ℚ)))

/-- The trial loop of `RISE._run_synchronous_explanation` (lines 145-158):
each iteration draws a mask from the threaded generator state, multiplies it
into the preprocessed data (abstract `applyMask`), runs the pure forward +
postprocess composition to scores, and accumulates the scored mask. -/
def runTrials {σ ι : Type} (rg : RandGen σ)
    (resizeCubic : List (List ℚ) → ℕ × ℕ → List (List ℚ))
    (applyMask : List (List ℚ) → ι → ι) (forward : ι → List ℚ)
    (data : ι) (input_size : ℕ × ℕ) (num_cells : ℕ) (prob : ℚ)
    (target_classes : Option (List ℕ)) :
    ℕ → List (List (List ℚ)) × σ → List (List (List ℚ)) × σ
  | 0, s => s
  | n + 1, s =>
      let ms := generateMask rg resizeCubic input_size num_cells prob s.2
      let raw_scores := forward (applyMask ms.1 data)
      runTrials rg resizeCubic applyMask forward data input_size num_cells prob
        target_classes n
        (addMaps s.1 (scoredMask raw_scores ms.1 target_classes), ms.2)

/-- `RISE._run_synchronous_explanation` (lines 124-162): seeds a fresh
generator via `np.random.default_rng(seed)`, zero-initialises one map per
target (`len(target_classes)`, or `num_classes` when targets are `None`)
and runs `num_masks` trials.  (The final dict reformatting for explicit
targets only pairs the maps with their indices.) -/
def runSynchronousExplanation {σ ι : Type} (rg : RandGen σ)
    (resizeCubic : List (List ℚ) → ℕ × ℕ → List (List ℚ))
    (applyMask : List (List ℚ) → ι → ι) (forward : ι → List ℚ)
    (data : ι) (input_size : ℕ × ℕ) (num_classes : ℕ)
    (target_classes : Option (List ℕ)) (num_masks num_cells : ℕ)
    (prob : ℚ) (seed : ℕ) : List (List (List ℚ)) :=
  let num_targets := match target_classes with
    | some ts => ts.length
    | none => num_classes
  (runTrials rg resizeCubic applyMask forward data input_size num_cells prob
    target_classes num_masks (zerosMaps num_targets input_size, rg.init seed)).1

/-- The mask sequence one run draws: the generator-state threading of the
trial loop with the aggregation stripped.  It depends only on
`(seed, num_masks, num_cells, prob)` and the input size. -/
def maskSequence {σ : Type} (rg : RandGen σ)
    (resizeCubic : List (List ℚ) → ℕ × ℕ → List (List ℚ))
    (input_size : ℕ × ℕ) (num_cells : ℕ) (prob : ℚ) :
    ℕ → σ → List (List (List ℚ))
  | 0, _ => []
  | n + 1, g =>
      let ms := generateMask rg resizeCubic input_size num_cells prob g
      ms.1 :: maskSequence rg resizeCubic input_size num_cells prob n ms.2

/-- One explain call threaded through the ambient process RNG state `w`
(e.g. the global NumPy generator): the source builds its own
`default_rng(seed)` and never reads or advances the ambient state, which the
embedding makes explicit — `w` is passed through untouched. -/
def runWithWorld {σ ι ω : Type} (rg : RandGen σ)
    (resizeCubic : List (List ℚ) → ℕ × ℕ → List (List ℚ))
    (applyMask : List (List ℚ) → ι → ι) (forward : ι → List ℚ)
    (data : ι) (input_size : ℕ × ℕ) (num_classes : ℕ)
    (target_classes : Option (List ℕ)) (num_masks num_cells : ℕ)
    (prob : ℚ) (seed : ℕ) (w : ω) : List (List (List ℚ)) × ω :=
  (runSynchronousExplanation rg resizeCubic applyMask forward data input_size
    num_classes target_classes num_masks num_cells prob seed, w)

/-- The trial loop is the fold of the scored-mask accumulation over the
deterministic mask sequence. -/
lemma runTrials_eq_foldl {σ ι : Type} (rg : RandGen σ)
    (resizeCubic : List (List ℚ) → ℕ × ℕ → List (List ℚ))
    (applyMask : List (List ℚ) → ι → ι) (forward : ι → List ℚ)
    (data : ι) (input_size : ℕ × ℕ) (num_cells : ℕ) (prob : ℚ)
    (target_classes : Option (List ℕ)) :
    ∀ (n : ℕ) (acc : List (List (List ℚ))) (g : σ),
      (runTrials rg resizeCubic applyMask forward data input_size num_cells prob
        target_classes n (acc, g)).1
      = (maskSequence rg resizeCubic input_size num_cells prob n g).foldl
          (fun a mask => addMaps a (scoredMask (forward (applyMask mask data)) mask
            target_classes)) acc := by
  intro n
  induction n with
  | zero => intro acc g; rfl
  | succ n ih =>
      intro acc g
      rw [runTrials, maskSequence, List.foldl_cons, ih]

/-- C5: RISE saliency generation is deterministic in
`(seed, num_masks, num_cells, prob)`.  Two runs from arbitrary ambient RNG
states produce the same result (the call seeds its own generator and ignores
ambient randomness), and the aggregated stack is exactly the fold of the
scored-mask accumulation over the mask sequence — itself a function of the
seed and tuning parameters only — so equal parameters give bit-identical
mask sequences and bit-identical aggregated saliency maps. -/
theorem c5_rise_deterministic {σ ι ω : Type} (rg : RandGen σ)
    (resizeCubic : List (List ℚ) → ℕ × ℕ → List (List ℚ))
    (applyMask : List (List ℚ) → ι → ι) (forward : ι → List ℚ)
    (data : ι) (input_size : ℕ × ℕ) (num_classes : ℕ)
    (target_classes : Option (List ℕ)) (num_masks num_cells : ℕ)
    (prob : ℚ) (seed : ℕ) (w₁ w₂ : ω) :
    (runWithWorld rg resizeCubic applyMask forward data input_size num_classes
        target_classes num_masks num_cells prob seed w₁).1
      = (runWithWorld rg resizeCubic applyMask forward data input_size num_classes
        target_classes num_masks num_cells prob seed w₂).1 ∧
    runSynchronousExplanation rg resizeCubic applyMask forward data input_size
        num_classes target_classes num_masks num_cells prob seed
      = (maskSequence rg resizeCubic input_size num_cells prob num_masks
          (rg.init seed)).foldl
          (fun a mask => addMaps a (scoredMask (forward (applyMask mask data)) mask
            target_classes))
          (zerosMaps (match target_classes with
            | some ts => ts.length
            | none => num_classes) input_size) := by
  refine ⟨rfl, ?_⟩
  rw [runSynchronousExplanation.eq_def, runTrials_eq_foldl]

/-- C5 witness: the determinism statement evaluated on a concrete trivial
generator, resize, model and image, from two different ambient states. -/
theorem c5_rise_deterministic_witness :
    (runWithWorld (⟨id, fun g => (1/2, g + 1), fun g _ => (0, g + 1)⟩ : RandGen ℕ)
        (fun grid _ => grid) (fun _ d => d) (fun _ => [1]) (0 : ℕ) (2, 2) 1
        none 3 2 (1/2) 0 (0 : ℕ)).1
      = (runWithWorld (⟨id, fun g => (1/2, g + 1), fun g _ => (0, g + 1)⟩ : RandGen ℕ)
        (fun grid _ => grid) (fun _ d => d) (fun _ => [1]) (0 : ℕ) (2, 2) 1
        none 3 2 (1/2) 0 (1 : ℕ)).1 :=
  (c5_rise_deterministic (⟨id, fun g => (1/2, g + 1), fun g _ => (0, g + 1)⟩ : RandGen ℕ)
    (fun grid _ => grid) (fun _ d => d) (fun _ => [1]) (0 : ℕ) (2, 2) 1
    none 3 2 (1/2) 0 0 1).1

end OpenvinoXai
